import Mathlib

/-!
# KFD SMI event broadcast

A shallow embedding of `drivers/gpu/drm/amd/amdkfd/kfd_smi_events.c`.

* Bytes (`char`, `unsigned char`) are natural numbers; a C string is the list
  of its characters before the terminating NUL.
* `struct kfd_smi_client` keeps its byte queue and its 64-bit event mask; the
  wait queue and the spinlock carry no data and are left out.  The RCU list
  `dev->smi_clients` is the list of the registered clients, head first.
* Every function is sequential: it is the effect of one call that runs alone.
* Calls that can fail for reasons outside the file (`kmalloc`,
  `copy_to_user`, `copy_from_user`, `access_ok`) take their outcome as an
  argument.
* `kfd_smi_event_add` hands `add_event_to_kfifo` a pointer to its buffer and a
  length; the memory at the pointer is the characters stored, the terminating
  NUL and the bytes after it, which are an argument of the producer functions.
-/

namespace KfdSmi

/-! ## Error numbers -/

/-- The error numbers the file operations return (negated) to their caller. -/
inductive Errno where
  | EAGAIN
  | ENOMEM
  | EFAULT
deriving DecidableEq, Repr

/-- Numeric value of an error number, as in `errno-base.h`. -/
def Errno.toInt : Errno → Int
  | .EAGAIN => 11
  | .ENOMEM => 12
  | .EFAULT => 14

/-- Result of a file operation: a payload on success, an error number otherwise. -/
inductive Ret (α : Type) where
  | ok (v : α)
  | err (e : Errno)
deriving DecidableEq, Repr

/-- The error number of a result, when it is an error. -/
def Ret.code {α : Type} : Ret α → Option Errno
  | .ok _ => none
  | .err e => some e

/-! ## The byte queue -/

/-- Modelled from the spec: `struct kfifo` and its operations
(`include/linux/kfifo.h`) are not among the sources at hand.  The spec
describes a bounded ring buffer of bytes with a fixed capacity, FIFO per
subscriber.  `data` is the buffered bytes, oldest first; `size` the capacity. -/
structure kfifo where
  size : Nat
  data : List Nat
deriving DecidableEq, Repr

/-- Modelled from the spec: `kfifo_len`, the number of buffered bytes. -/
def kfifo_len (fifo : kfifo) : Nat := fifo.data.length

/-- Modelled from the spec: `kfifo_avail`, the free space of the queue. -/
def kfifo_avail (fifo : kfifo) : Nat := fifo.size - fifo.data.length

/-- Modelled from the spec: `kfifo_is_empty`. -/
def kfifo_is_empty (fifo : kfifo) : Bool := fifo.data.isEmpty

/-- Modelled from the spec: `kfifo_in` copies at most `len` bytes from `buf`
to the end of the queue, bounded by the free space, and returns the queue and
the number of bytes copied.  `buf` is the memory the source pointer refers to;
the bytes copied are its first ones. -/
def kfifo_in (fifo : kfifo) (buf : List Nat) (len : Nat) : kfifo × Nat :=
  let l := min len (kfifo_avail fifo)
  ({ fifo with data := fifo.data ++ buf.take l }, l)

/-- Modelled from the spec: `kfifo_out` removes at most `len` bytes from the
front of the queue and returns the queue, the bytes and their number. -/
def kfifo_out (fifo : kfifo) (len : Nat) : kfifo × List Nat × Nat :=
  let l := min len (kfifo_len fifo)
  ({ fifo with data := fifo.data.drop l }, fifo.data.take l, l)

/-- Modelled from the spec: `kfifo_alloc` of a power-of-two capacity gives an
empty queue of that capacity. -/
def kfifo_alloc (size : Nat) : kfifo := { size := size, data := [] }

/-! ## Subscribers and the device -/

/-- Capacity of a subscriber's queue (`#define MAX_KFIFO_SIZE 1024`). -/
def MAX_KFIFO_SIZE : Nat := 1024

/-- The data of `struct kfd_smi_client`: the queue and the enabled events (`uint64_t`). -/
structure kfd_smi_client where
  fifo : kfifo
  events : Nat
deriving DecidableEq, Repr

/-- The part of `struct kfd_dev` the file uses: the registered clients and
the 32-bit reset sequence number. -/
structure kfd_dev where
  smi_clients : List kfd_smi_client
  reset_seq_num : Nat
deriving DecidableEq, Repr

/-- A client as `kfd_smi_event_open` makes it and every operation keeps it:
capacity `MAX_KFIFO_SIZE`, no more bytes buffered than the capacity, a mask
that fits 64 bits. -/
def client_wf (c : kfd_smi_client) : Prop :=
  c.fifo.size = MAX_KFIFO_SIZE ∧ c.fifo.data.length ≤ c.fifo.size ∧ c.events < 2 ^ 64

instance (c : kfd_smi_client) : Decidable (client_wf c) := by
  unfold client_wf; exact inferInstance

/-- Modelled from the spec: `KFD_SMI_EVENT_MASK_FROM_INDEX` is a macro of
`uapi/linux/kfd_ioctl.h`, which is not among the sources at hand.  The spec
says that bit `i` of the mask selects the events of kind `i`; the value is a
64-bit one. -/
def KFD_SMI_EVENT_MASK_FROM_INDEX (i : Nat) : Nat := (1 <<< i) % 2 ^ 64

/-- Modelled from the spec: `KFD_SMI_EVENT_MSG_SIZE` is a constant of
`uapi/linux/kfd_ioctl.h`, which is not among the sources at hand.  The spec
gives 96 bytes for the fixed maximum record size. -/
def KFD_SMI_EVENT_MSG_SIZE : Nat := 96

/-- The event kinds of `enum kfd_smi_event` (`uapi/linux/kfd_ioctl.h`, not
among the sources at hand): their values are parameters of the model. -/
structure kfd_smi_event where
  KFD_SMI_EVENT_VMFAULT : Nat
  KFD_SMI_EVENT_THERMAL_THROTTLE : Nat
  KFD_SMI_EVENT_GPU_PRE_RESET : Nat
  KFD_SMI_EVENT_GPU_POST_RESET : Nat
deriving DecidableEq, Repr

/-! ## Broadcast -/

/-- Body of the `list_for_each_entry_rcu` loop of `add_event_to_kfifo` for one
client: skip it when the mask does not select the event, else append the
`len` bytes at `event_msg` when the free space allows and drop them otherwise.
`len` is the non-negative `int` the caller computed.  When `len` exceeds the
bytes at `event_msg` the source reads past them; the statements about the
bytes appended take `len` within `event_msg`. -/
def add_event_to_client (client : kfd_smi_client) (smi_event : Nat)
    (event_msg : List Nat) (len : Nat) : kfd_smi_client :=
  if client.events &&& KFD_SMI_EVENT_MASK_FROM_INDEX smi_event = 0 then client
  else if kfifo_avail client.fifo ≥ len then
    { client with fifo := (kfifo_in client.fifo event_msg len).1 }
  else client

/-- The function `add_event_to_kfifo`: offer the record to every registered client. -/
def add_event_to_kfifo (dev : kfd_dev) (smi_event : Nat)
    (event_msg : List Nat) (len : Nat) : kfd_dev :=
  { dev with smi_clients :=
      dev.smi_clients.map (fun client => add_event_to_client client smi_event event_msg len) }

/-! ## File operations -/

/-- The function `kfd_smi_ev_poll`: readable exactly when the queue is not empty. -/
def kfd_smi_ev_poll (client : kfd_smi_client) : Bool :=
  !kfifo_is_empty client.fifo

/-- The function `kfd_smi_ev_read`.  `kmalloc_ok` tells whether the bounce
buffer could be allocated, `copy_to_user_ok` whether the caller's buffer could
be written.  On success the payload is the bytes copied to the caller (their
number is the return value). -/
def kfd_smi_ev_read (client : kfd_smi_client) (size : Nat)
    (kmalloc_ok copy_to_user_ok : Bool) : Ret (List Nat) × kfd_smi_client :=
  let size := min size MAX_KFIFO_SIZE
  if !kmalloc_ok then (.err .ENOMEM, client)
  else
    let to_copy := kfifo_len client.fifo
    if to_copy = 0 then (.err .EAGAIN, client)
    else
      let to_copy := min size to_copy
      let r := kfifo_out client.fifo to_copy
      let client := { client with fifo := r.1 }
      if r.2.2 = 0 then (.err .EAGAIN, client)
      else if !copy_to_user_ok then (.err .EFAULT, client)
      else (.ok r.2.1, client)

/-- Little-endian value of a byte string (the host's native encoding of a
`uint64_t` read from 8 bytes). -/
def le_value : List Nat → Nat
  | [] => 0
  | b :: bs => b % 256 + 256 * le_value bs

/-- The 8 bytes of a 64-bit value, least significant first. -/
def u64_bytes (v : Nat) : List Nat :=
  (List.range 8).map (fun i => v / 256 ^ i % 256)

/-- Outcome of `copy_from_user` of `n` bytes from a user buffer whose readable
bytes are `user`: the bytes, or nothing when the copy faults. -/
def copy_from_user (user : List Nat) (n : Nat) : Option (List Nat) :=
  if n ≤ user.length then some (user.take n) else none

/-- The function `kfd_smi_ev_write`.  `access_ok` is the outcome of the range
check on the caller's buffer, `user` its readable bytes, `size` the length
the caller passed.  On success the payload is the return value. -/
def kfd_smi_ev_write (client : kfd_smi_client) (access_ok : Bool)
    (user : List Nat) (size : Nat) : Ret Nat × kfd_smi_client :=
  if !access_ok || size < 8 then (.err .EFAULT, client)
  else
    match copy_from_user user 8 with
    | none => (.err .EFAULT, client)
    | some bytes => (.ok 8, { client with events := le_value bytes })

/-- The function `kfd_smi_ev_release`: unlink the client at position `i` of the list. -/
def kfd_smi_ev_release (dev : kfd_dev) (i : Nat) : kfd_dev :=
  { dev with smi_clients := dev.smi_clients.eraseIdx i }

/-- The function `kfd_smi_event_open`: a new client with an empty queue of
`MAX_KFIFO_SIZE` bytes and no event enabled is linked at the head of the
list.  The three arguments are the outcomes of `kzalloc`, `kfifo_alloc` and
`anon_inode_getfd` (a descriptor, or a negative error).  The result is the
return value and the device. -/
def kfd_smi_event_open (dev : kfd_dev) (kzalloc_ok kfifo_alloc_ok : Bool)
    (anon_fd : Int) : Int × kfd_dev :=
  if !kzalloc_ok then (-Errno.ENOMEM.toInt, dev)
  else if !kfifo_alloc_ok then (-Errno.ENOMEM.toInt, dev)
  else if anon_fd < 0 then (anon_fd, dev)
  else
    let client : kfd_smi_client := { fifo := kfifo_alloc MAX_KFIFO_SIZE, events := 0 }
    (0, { dev with smi_clients := client :: dev.smi_clients })

/-! ## Event encoding -/

/-- The lowercase hexadecimal digit of a value below 16, as a character code. -/
def hex_digit (d : Nat) : Nat := if d < 10 then 48 + d else 87 + d

/-- The digit loop of the kernel's number formatting for base 16: digits are
produced least significant first, at least one, until the value is zero.
`fuel` bounds the number of digits (the size of the temporary buffer). -/
def hex_digits_rev : Nat → Nat → List Nat
  | 0, _ => []
  | fuel + 1, n =>
    hex_digit (n % 16) :: (if n / 16 = 0 then [] else hex_digits_rev fuel (n / 16))

/-- Expansion of the conversion `%x` for an `unsigned int` argument. -/
def fmt_x (v : Nat) : List Nat := (hex_digits_rev 8 (v % 2 ^ 32)).reverse

/-- Expansion of the conversion `%llx` for an `unsigned long long` argument. -/
def fmt_llx (v : Nat) : List Nat := (hex_digits_rev 16 (v % 2 ^ 64)).reverse

/-- The functions `snprintf` and `vsnprintf` (ISO C99 semantics, which
`lib/vsprintf.c` follows): `s` is the complete expansion of the format and
`size` the room of the destination.  At most `size - 1` characters of `s` are
stored, followed by a NUL; the return value is the length of the complete
expansion, whether or not it was truncated.  The result is the characters
stored before the NUL, and the return value. -/
def vsnprintf (size : Nat) (s : List Nat) : List Nat × Nat :=
  (s.take (size - 1), s.length)

/-- The encoding steps of `kfd_smi_event_add`: the tag `"%x "` of the event,
then the expansion `body` of the caller's format, both written to the buffer
`fifo_in` of `KFD_SMI_EVENT_MSG_SIZE` bytes.  The result is the characters
stored in `fifo_in` before the final NUL, and the value of `len` that is
handed to `add_event_to_kfifo`. -/
def kfd_smi_event_encode (event : Nat) (body : List Nat) : List Nat × Nat :=
  let r1 := vsnprintf KFD_SMI_EVENT_MSG_SIZE (fmt_x event ++ [32])
  let len := r1.2
  let r2 := vsnprintf (KFD_SMI_EVENT_MSG_SIZE - len) body
  (r1.1 ++ r2.1, len + r2.2)

/-- The function `kfd_smi_event_add`; `body` is the expansion of `fmt` with
its arguments.  Nothing is done when no client is registered.  The memory at
`fifo_in` that `add_event_to_kfifo` copies from is the characters stored, the
terminating NUL and `stack`, the bytes that follow the NUL in memory (the part
of `fifo_in` that was not written, then what lies after the buffer); they are
reached only when `len` exceeds the characters stored. -/
def kfd_smi_event_add (dev : kfd_dev) (event : Nat) (body : List Nat)
    (stack : List Nat) : kfd_dev :=
  if dev.smi_clients.isEmpty then dev
  else
    let r := kfd_smi_event_encode event body
    add_event_to_kfifo dev event (r.1 ++ 0 :: stack) r.2

/-- The function `kfd_smi_event_update_gpu_reset`, format `"%x\n"`; `stack`
is the memory after the encoded record, see `kfd_smi_event_add`. -/
def kfd_smi_event_update_gpu_reset (ids : kfd_smi_event) (dev : kfd_dev)
    (post_reset : Bool) (stack : List Nat) : kfd_dev :=
  let event :=
    if post_reset then ids.KFD_SMI_EVENT_GPU_POST_RESET else ids.KFD_SMI_EVENT_GPU_PRE_RESET
  let dev :=
    if post_reset then dev else { dev with reset_seq_num := (dev.reset_seq_num + 1) % 2 ^ 32 }
  kfd_smi_event_add dev event (fmt_x dev.reset_seq_num ++ [10]) stack

/-- The function `kfd_smi_event_update_thermal_throttling`, format
`"%llx:%llx\n"`; `counter` is what `amdgpu_dpm_get_thermal_throttling_counter`
returns, `stack` the memory after the encoded record. -/
def kfd_smi_event_update_thermal_throttling (ids : kfd_smi_event) (dev : kfd_dev)
    (throttle_bitmask counter : Nat) (stack : List Nat) : kfd_dev :=
  kfd_smi_event_add dev ids.KFD_SMI_EVENT_THERMAL_THROTTLE
    (fmt_llx throttle_bitmask ++ [58] ++ fmt_llx counter ++ [10]) stack

/-- The fields of `struct amdgpu_task_info` the file reads: the process id and
the task name (a C string held in an array of `TASK_COMM_LEN` bytes). -/
structure amdgpu_task_info where
  pid : Nat
  task_name : List Nat
deriving DecidableEq, Repr

/-- Size of the `task_name` array (`TASK_COMM_LEN` of `linux/sched.h`). -/
def TASK_COMM_LEN : Nat := 16

/-- The function `kfd_smi_event_update_vmfault`, format `"%x:%s\n"`.
`amdgpu_vm_get_task_info` is the collaborator that fills the zeroed task
information for a pasid; it leaves it zeroed when it knows no process.
`stack` is the memory after the encoded record, see `kfd_smi_event_add`. -/
def kfd_smi_event_update_vmfault (ids : kfd_smi_event)
    (amdgpu_vm_get_task_info : Nat → amdgpu_task_info → amdgpu_task_info)
    (dev : kfd_dev) (pasid : Nat) (stack : List Nat) : kfd_dev :=
  let task_info := amdgpu_vm_get_task_info pasid { pid := 0, task_name := [] }
  if task_info.pid = 0 then dev
  else
    kfd_smi_event_add dev ids.KFD_SMI_EVENT_VMFAULT
      (fmt_x task_info.pid ++ [58] ++ task_info.task_name ++ [10]) stack

/-! ## Sequences of calls -/

/-- A sequence of broadcasts: each record `(kind, bytes)` is handed to
`add_event_to_kfifo` with its own length, in order. -/
def broadcast_all (dev : kfd_dev) (records : List (Nat × List Nat)) : kfd_dev :=
  records.foldl (fun d r => add_event_to_kfifo d r.1 r.2 r.2.length) dev

/-- What a sequence of broadcasts does to one client. -/
def enqueue_all (client : kfd_smi_client) (records : List (Nat × List Nat)) : kfd_smi_client :=
  records.foldl (fun c r => add_event_to_client c r.1 r.2 r.2.length) client

/-- Every record of the sequence is accepted by the client at the time it is
offered: the mask selects its kind and the free space is enough. -/
def accepted_all : kfd_smi_client → List (Nat × List Nat) → Prop
  | _, [] => True
  | c, r :: rest =>
    c.events &&& KFD_SMI_EVENT_MASK_FROM_INDEX r.1 ≠ 0 ∧ r.2.length ≤ kfifo_avail c.fifo ∧
      accepted_all (add_event_to_client c r.1 r.2 r.2.length) rest

/-- Acceptance of a sequence of records can be computed. -/
def accepted_all_decidable :
    (c : kfd_smi_client) → (records : List (Nat × List Nat)) → Decidable (accepted_all c records)
  | _, [] => isTrue trivial
  | c, r :: rest =>
    have := accepted_all_decidable (add_event_to_client c r.1 r.2 r.2.length) rest
    by unfold accepted_all; exact inferInstance

instance (c : kfd_smi_client) (records : List (Nat × List Nat)) :
    Decidable (accepted_all c records) := accepted_all_decidable c records

/-- A sequence of `kfd_smi_ev_read` calls, each request being the size and the
two outcomes of the environment.  The result is the bytes returned, in order,
and the final client, when every call succeeds; nothing otherwise. -/
def read_seq : kfd_smi_client → List (Nat × Bool × Bool) → Option (List Nat × kfd_smi_client)
  | c, [] => some ([], c)
  | c, q :: rest =>
    match kfd_smi_ev_read c q.1 q.2.1 q.2.2 with
    | (.ok bytes, c1) => (read_seq c1 rest).map (fun r => (bytes ++ r.1, r.2))
    | (.err _, _) => none

/-! ## Concrete states used to exercise the statements -/

/-- Subscriber H1 of the spec's scenario: mask `0x2`, empty queue. -/
def scenario_H1 : kfd_smi_client := { fifo := kfifo_alloc MAX_KFIFO_SIZE, events := 0x2 }

/-- Subscriber H2 of the spec's scenario: mask `0x3`, empty queue. -/
def scenario_H2 : kfd_smi_client := { fifo := kfifo_alloc MAX_KFIFO_SIZE, events := 0x3 }

/-- Device of the spec's scenario, with H1 and H2 registered. -/
def scenario_dev : kfd_dev := { smi_clients := [scenario_H1, scenario_H2], reset_seq_num := 0 }

/-- A subscriber with mask `0x3` whose queue holds 1022 bytes, so that 2 are free. -/
def nearly_full_client : kfd_smi_client :=
  { fifo := { size := MAX_KFIFO_SIZE, data := List.replicate 1022 120 }, events := 0x3 }

/-- A subscriber with mask `0x3` whose queue is full. -/
def full_client : kfd_smi_client :=
  { fifo := { size := MAX_KFIFO_SIZE, data := List.replicate 1024 120 }, events := 0x3 }

/-- A device with a subscriber whose queue is full and subscriber H2 of the scenario. -/
def isolation_dev : kfd_dev := { smi_clients := [full_client, scenario_H2], reset_seq_num := 0 }

/-- Two records, `"1 a\n"` of kind 1 and `"0 b\n"` of kind 0. -/
def two_records : List (Nat × List Nat) := [(1, [49, 32, 97, 10]), (0, [48, 32, 98, 10])]

/-- A subscriber whose queue holds the single byte `A`. -/
def one_byte_client : kfd_smi_client :=
  { fifo := { size := MAX_KFIFO_SIZE, data := [65] }, events := 0x1 }

/-- Value of a lowercase hexadecimal digit character; nothing for any other character. -/
def hex_char_value (c : Nat) : Option Nat :=
  if 48 ≤ c ∧ c ≤ 57 then some (c - 48)
  else if 97 ≤ c ∧ c ≤ 102 then some (c - 87)
  else none

/-- Value of a lowercase hexadecimal numeral given least significant digit
first; nothing when a character is not a lowercase hexadecimal digit. -/
def hex_value_rev : List Nat → Option Nat
  | [] => some 0
  | c :: cs =>
    match hex_char_value c, hex_value_rev cs with
    | some d, some v => some (d + 16 * v)
    | _, _ => none

/-- Value of a lowercase hexadecimal numeral, most significant digit first. -/
def hex_value (s : List Nat) : Option Nat := hex_value_rev s.reverse

/-- The record the claims give for a reset event: the kind in hexadecimal, a
blank, the sequence number in hexadecimal, a newline. -/
def gpu_reset_record (event seq : Nat) : List Nat := fmt_x event ++ [32] ++ fmt_x seq ++ [10]

/-- The record the claims give for a VM fault: the kind in hexadecimal, a
blank, the process id in hexadecimal, a colon, the task name, a newline. -/
def vmfault_record (event pid : Nat) (task_name : List Nat) : List Nat :=
  fmt_x event ++ [32] ++ fmt_x pid ++ [58] ++ task_name ++ [10]

/-- The values of the event kinds used to exercise the statements. -/
def sample_ids : kfd_smi_event :=
  { KFD_SMI_EVENT_VMFAULT := 1, KFD_SMI_EVENT_THERMAL_THROTTLE := 2,
    KFD_SMI_EVENT_GPU_PRE_RESET := 3, KFD_SMI_EVENT_GPU_POST_RESET := 4 }

/-- A device with one subscriber that enables every kind, at sequence number `0x1e`. -/
def sample_dev : kfd_dev :=
  { smi_clients := [{ fifo := kfifo_alloc MAX_KFIFO_SIZE, events := 2 ^ 64 - 1 }],
    reset_seq_num := 0x1e }

/-- Eight bytes of memory found after the terminating NUL of an encoded record. -/
def sample_stack : List Nat := [1, 2, 3, 4, 5, 6, 7, 8]

/-- A task-info collaborator that knows the process 0x4d2 named `bash` for
pasid 7 and no process for any other pasid. -/
def sample_task_info (pasid : Nat) (info : amdgpu_task_info) : amdgpu_task_info :=
  if pasid = 7 then { pid := 0x4d2, task_name := [98, 97, 115, 104] } else info

/-! ## Auxiliary facts -/

theorem mask_selects_iff (events K : Nat) (hK : K < 64) :
    events &&& KFD_SMI_EVENT_MASK_FROM_INDEX K ≠ 0 ↔ events.testBit K = true := by
  unfold KFD_SMI_EVENT_MASK_FROM_INDEX
  have h1 : (2 : Nat) ^ K < 2 ^ 64 := Nat.pow_lt_pow_right (by norm_num) hK
  rw [Nat.one_shiftLeft, Nat.mod_eq_of_lt h1, Nat.and_two_pow]
  have h2 : 0 < 2 ^ K := Nat.pos_pow_of_pos K (by norm_num)
  cases h : events.testBit K <;> simp [h]

theorem add_event_to_client_skip (c : kfd_smi_client) (K : Nat) (msg : List Nat) (len : Nat)
    (h : c.events &&& KFD_SMI_EVENT_MASK_FROM_INDEX K = 0) :
    add_event_to_client c K msg len = c := by
  simp [add_event_to_client, h]

theorem add_event_to_client_drop (c : kfd_smi_client) (K : Nat) (msg : List Nat) (len : Nat)
    (h : ¬ len ≤ kfifo_avail c.fifo) :
    add_event_to_client c K msg len = c := by
  unfold add_event_to_client
  split
  · rfl
  · simp [h]

theorem add_event_to_client_accept (c : kfd_smi_client) (K : Nat) (msg : List Nat) (len : Nat)
    (hm : c.events &&& KFD_SMI_EVENT_MASK_FROM_INDEX K ≠ 0) (h : len ≤ kfifo_avail c.fifo) :
    add_event_to_client c K msg len =
      { c with fifo := { c.fifo with data := c.fifo.data ++ msg.take len } } := by
  simp [add_event_to_client, hm, h, kfifo_in, Nat.min_eq_left h]

theorem add_event_to_client_events (c : kfd_smi_client) (K : Nat) (msg : List Nat) (len : Nat) :
    (add_event_to_client c K msg len).events = c.events := by
  unfold add_event_to_client
  split
  · rfl
  · split <;> rfl

theorem add_event_to_client_wf (c : kfd_smi_client) (K : Nat) (msg : List Nat) (len : Nat)
    (hwf : client_wf c) : client_wf (add_event_to_client c K msg len) := by
  obtain ⟨h1, h2, h3⟩ := hwf
  unfold add_event_to_client
  split
  · exact ⟨h1, h2, h3⟩
  · split
    · rename_i hle
      refine ⟨h1, ?_, h3⟩
      simp only [kfifo_in, kfifo_avail, List.length_append, List.length_take] at *
      omega
    · exact ⟨h1, h2, h3⟩

theorem add_event_to_kfifo_client (dev : kfd_dev) (K : Nat) (msg : List Nat) (len i : Nat) :
    (add_event_to_kfifo dev K msg len).smi_clients[i]? =
      (dev.smi_clients[i]?).map (fun c => add_event_to_client c K msg len) := by
  simp [add_event_to_kfifo]

/-! ## Filter and bounded enqueue -/

/-- Claim C1 (filter correctness of the broadcast): for every list of
registered clients, every client `S` registered at position `i`, every event
kind `K` below 64 and every non-empty record (the `len` bytes at `event_msg`)
that fits the free space of the queue of `S`, the broadcast leaves at
position `i` a client whose queue is the old queue followed by the record if
and only if bit `K` of the mask of `S` is set; when the bit is clear the
client is unchanged, and the mask is never changed. -/
theorem filter_correctness (dev : kfd_dev) (i : Nat) (S : kfd_smi_client) (K : Nat)
    (event_msg : List Nat) (len : Nat)
    (hS : dev.smi_clients[i]? = some S) (hK : K < 64)
    (hlen : 0 < len) (hbuf : len ≤ event_msg.length)
    (hroom : len ≤ kfifo_avail S.fifo) :
    (add_event_to_kfifo dev K event_msg len).smi_clients[i]? =
        some (add_event_to_client S K event_msg len) ∧
      ((add_event_to_client S K event_msg len).fifo.data = S.fifo.data ++ event_msg.take len
        ↔ S.events.testBit K = true) ∧
      (S.events.testBit K = false → add_event_to_client S K event_msg len = S) ∧
      (add_event_to_client S K event_msg len).events = S.events := by
  refine ⟨by rw [add_event_to_kfifo_client, hS]; rfl, ?_, ?_, add_event_to_client_events _ _ _ _⟩
  · rw [← mask_selects_iff S.events K hK]
    constructor
    · intro h hz
      rw [add_event_to_client_skip S K event_msg len hz] at h
      have hl := congrArg List.length h
      simp only [List.length_append, List.length_take] at hl
      omega
    · intro hm
      rw [add_event_to_client_accept S K event_msg len hm hroom]
  · intro hb
    apply add_event_to_client_skip
    by_contra hne
    have := (mask_selects_iff S.events K hK).mp hne
    rw [hb] at this
    exact absurd this (by decide)

/-- Claim C2 (bounded enqueue, newest dropped): for every well-formed client
whose mask selects the kind and every record of `len` bytes, the enqueue step
appends all `len` bytes to the end of the queue if and only if the free space,
1024 minus the bytes buffered, is at least `len`; otherwise the client, and so
the queue, is exactly unchanged.  The same holds for the client at any
position of the list that `add_event_to_kfifo` walks. -/
theorem bounded_enqueue_drop_newest (dev : kfd_dev) (i : Nat) (S : kfd_smi_client) (K : Nat)
    (event_msg : List Nat) (len : Nat)
    (hS : dev.smi_clients[i]? = some S) (hwf : client_wf S)
    (hmatch : S.events &&& KFD_SMI_EVENT_MASK_FROM_INDEX K ≠ 0)
    (hbuf : len ≤ event_msg.length) :
    (add_event_to_kfifo dev K event_msg len).smi_clients[i]? =
        some (add_event_to_client S K event_msg len) ∧
      ((add_event_to_client S K event_msg len).fifo.data = S.fifo.data ++ event_msg.take len
        ↔ len ≤ 1024 - S.fifo.data.length) ∧
      (len ≤ 1024 - S.fifo.data.length →
        (add_event_to_client S K event_msg len).fifo.data.length = S.fifo.data.length + len) ∧
      (¬ len ≤ 1024 - S.fifo.data.length → add_event_to_client S K event_msg len = S) ∧
      client_wf (add_event_to_client S K event_msg len) := by
  have havail : kfifo_avail S.fifo = 1024 - S.fifo.data.length := by
    unfold kfifo_avail; rw [hwf.1]; rfl
  refine ⟨by rw [add_event_to_kfifo_client, hS]; rfl, ?_, ?_, ?_,
    add_event_to_client_wf _ _ _ _ hwf⟩
  · constructor
    · intro h
      by_contra hno
      rw [add_event_to_client_drop S K event_msg len (by rw [havail]; exact hno)] at h
      have hl := congrArg List.length h
      simp only [List.length_append, List.length_take] at hl
      omega
    · intro hle
      rw [add_event_to_client_accept S K event_msg len hmatch (by rw [havail]; exact hle)]
  · intro hle
    rw [add_event_to_client_accept S K event_msg len hmatch (by rw [havail]; exact hle)]
    simp only [List.length_append, List.length_take]
    omega
  · intro hno
    exact add_event_to_client_drop S K event_msg len (by rw [havail]; exact hno)

/-- The scenario of the spec for claim C1, through `filter_correctness`: with
masks `0x2` (H1) and `0x3` (H2), the record `"1 1\n"` of kind 1 reaches both
queues, the record `"0 1\n"` of kind 0 reaches the queue of H2 only. -/
theorem filter_correctness_witness :
    (scenario_dev.smi_clients[0]? = some scenario_H1 ∧ 0 < 64 ∧ 0 < 4 ∧
        4 ≤ [48, 32, 49, 10].length ∧ 4 ≤ kfifo_avail scenario_H1.fifo) ∧
      ((add_event_to_kfifo scenario_dev 0 [48, 32, 49, 10] 4).smi_clients[0]? =
          some (add_event_to_client scenario_H1 0 [48, 32, 49, 10] 4) ∧
        ((add_event_to_client scenario_H1 0 [48, 32, 49, 10] 4).fifo.data =
            scenario_H1.fifo.data ++ [48, 32, 49, 10].take 4
          ↔ scenario_H1.events.testBit 0 = true) ∧
        (scenario_H1.events.testBit 0 = false →
          add_event_to_client scenario_H1 0 [48, 32, 49, 10] 4 = scenario_H1) ∧
        (add_event_to_client scenario_H1 0 [48, 32, 49, 10] 4).events = scenario_H1.events) ∧
      (add_event_to_kfifo scenario_dev 1 [49, 32, 49, 10] 4).smi_clients.map (fun c => c.fifo.data) =
        [[49, 32, 49, 10], [49, 32, 49, 10]] ∧
      (add_event_to_kfifo scenario_dev 0 [48, 32, 49, 10] 4).smi_clients.map (fun c => c.fifo.data) =
        [[], [48, 32, 49, 10]] :=
  ⟨by decide,
    filter_correctness scenario_dev 0 scenario_H1 0 [48, 32, 49, 10] 4
      (by decide) (by decide) (by decide) (by decide) (by decide),
    by decide, by decide⟩

theorem nearly_full_client_length : nearly_full_client.fifo.data.length = 1022 :=
  List.length_replicate 1022 120

theorem nearly_full_client_wf : client_wf nearly_full_client :=
  ⟨rfl, by rw [nearly_full_client_length]; decide, by decide⟩

theorem nearly_full_client_match :
    nearly_full_client.events &&& KFD_SMI_EVENT_MASK_FROM_INDEX 1 ≠ 0 := by decide

/-- Claim C2 exercised through `bounded_enqueue_drop_newest`: a queue with 2
free bytes is offered a record of 4 bytes and stays as it is, and takes a
record of 2 bytes whole. -/
theorem bounded_enqueue_drop_newest_witness :
    ({ smi_clients := [nearly_full_client], reset_seq_num := 0 } : kfd_dev).smi_clients[0]? =
        some nearly_full_client ∧
      client_wf nearly_full_client ∧
      nearly_full_client.events &&& KFD_SMI_EVENT_MASK_FROM_INDEX 1 ≠ 0 ∧
      4 ≤ [49, 32, 49, 10].length ∧
      ¬ 4 ≤ 1024 - nearly_full_client.fifo.data.length ∧
      add_event_to_client nearly_full_client 1 [49, 32, 49, 10] 4 = nearly_full_client ∧
      (add_event_to_client nearly_full_client 1 [49, 32] 2).fifo.data.length =
        nearly_full_client.fifo.data.length + 2 :=
  ⟨rfl, nearly_full_client_wf, nearly_full_client_match, by decide,
    by rw [nearly_full_client_length]; decide,
    (bounded_enqueue_drop_newest { smi_clients := [nearly_full_client], reset_seq_num := 0 } 0
      nearly_full_client 1 [49, 32, 49, 10] 4
      rfl nearly_full_client_wf nearly_full_client_match
      (by decide)).2.2.2.1 (by rw [nearly_full_client_length]; decide),
    (bounded_enqueue_drop_newest { smi_clients := [nearly_full_client], reset_seq_num := 0 } 0
      nearly_full_client 1 [49, 32] 2
      rfl nearly_full_client_wf nearly_full_client_match
      (by decide)).2.2.1 (by rw [nearly_full_client_length])⟩

/-! ## Sequences of broadcasts and isolation -/

theorem add_event_to_kfifo_nil (dev : kfd_dev) (K : Nat) (msg : List Nat) (len : Nat)
    (h : dev.smi_clients = []) : add_event_to_kfifo dev K msg len = dev := by
  cases dev
  simp_all [add_event_to_kfifo]

theorem broadcast_all_clients (records : List (Nat × List Nat)) (dev : kfd_dev) :
    (broadcast_all dev records).smi_clients =
      dev.smi_clients.map (fun c => enqueue_all c records) := by
  induction records generalizing dev with
  | nil => simp [broadcast_all, enqueue_all]
  | cons r rest ih =>
    have h := ih (add_event_to_kfifo dev r.1 r.2 r.2.length)
    simp only [broadcast_all, enqueue_all, List.foldl_cons] at h ⊢
    rw [h]
    simp [add_event_to_kfifo]

theorem broadcast_all_reset_seq_num (records : List (Nat × List Nat)) (dev : kfd_dev) :
    (broadcast_all dev records).reset_seq_num = dev.reset_seq_num := by
  induction records generalizing dev with
  | nil => rfl
  | cons r rest ih =>
    have h := ih (add_event_to_kfifo dev r.1 r.2 r.2.length)
    simp only [broadcast_all, List.foldl_cons] at h ⊢
    rw [h]
    rfl

theorem add_event_to_client_full (c : kfd_smi_client) (K : Nat) (msg : List Nat) (len : Nat)
    (hfull : c.fifo.data.length = c.fifo.size) : add_event_to_client c K msg len = c := by
  by_cases hm : c.events &&& KFD_SMI_EVENT_MASK_FROM_INDEX K = 0
  · exact add_event_to_client_skip c K msg len hm
  · by_cases hle : len ≤ kfifo_avail c.fifo
    · rw [add_event_to_client_accept c K msg len hm hle]
      have h0 : len = 0 := by
        unfold kfifo_avail at hle
        omega
      subst h0
      simp
    · exact add_event_to_client_drop c K msg len hle

theorem enqueue_all_full (records : List (Nat × List Nat)) (c : kfd_smi_client)
    (hfull : c.fifo.data.length = c.fifo.size) : enqueue_all c records = c := by
  induction records with
  | nil => rfl
  | cons r rest ih =>
    simp only [enqueue_all, List.foldl_cons] at ih ⊢
    rw [add_event_to_client_full c r.1 r.2 r.2.length hfull]
    exact ih

theorem enqueue_all_accepted (records : List (Nat × List Nat)) (c : kfd_smi_client)
    (hacc : accepted_all c records) :
    enqueue_all c records =
      { c with fifo := { c.fifo with data := c.fifo.data ++ (records.map Prod.snd).flatten } } := by
  induction records generalizing c with
  | nil => simp [enqueue_all]
  | cons r rest ih =>
    obtain ⟨hm, hle, hrest⟩ := hacc
    have h := ih (add_event_to_client c r.1 r.2 r.2.length) hrest
    simp only [enqueue_all, List.foldl_cons] at h ⊢
    rw [h, add_event_to_client_accept c r.1 r.2 r.2.length hm hle]
    simp

theorem accepted_all_of_room (records : List (Nat × List Nat)) (c : kfd_smi_client)
    (hm : ∀ r ∈ records, c.events &&& KFD_SMI_EVENT_MASK_FROM_INDEX r.1 ≠ 0)
    (hroom : ((records.map Prod.snd).flatten).length ≤ kfifo_avail c.fifo) :
    accepted_all c records := by
  induction records generalizing c with
  | nil => trivial
  | cons r rest ih =>
    simp only [List.map_cons, List.flatten_cons, List.length_append] at hroom
    have hmr := hm r (List.mem_cons_self _ _)
    have hle : r.2.length ≤ kfifo_avail c.fifo := by omega
    refine ⟨hmr, hle, ih _ ?_ ?_⟩
    · intro q hq
      rw [add_event_to_client_events]
      exact hm q (List.mem_cons_of_mem _ hq)
    · rw [add_event_to_client_accept c r.1 r.2 r.2.length hmr hle]
      simp only [kfifo_avail, List.length_append, List.length_take] at hroom hle ⊢
      omega

theorem map_eraseIdx_comm (f : kfd_smi_client → kfd_smi_client) (l : List kfd_smi_client)
    (i : Nat) : (l.eraseIdx i).map f = (l.map f).eraseIdx i := by
  induction l generalizing i with
  | nil => simp
  | cons c cs ih =>
    cases i with
    | zero => simp
    | succ n => simp [ih]

/-- Claim C4 (isolation between subscribers): for every list of registered
clients with `A` at position `i` and `B` at another position `j`, what one
broadcast, and what a sequence of broadcasts, leaves at position `j` is a
function of `B` alone; when the queue of `A` is full the sequence leaves `A`
unchanged; when the mask of `B` selects every record and the free space of
`B` holds them all, the queue of `B` ends as its old contents followed by all
the records in order; and the clients other than `A` end in the same states
when `A` is unlinked before the sequence. -/
theorem isolation (dev : kfd_dev) (i j : Nat) (A B : kfd_smi_client)
    (records : List (Nat × List Nat))
    (hA : dev.smi_clients[i]? = some A) (hB : dev.smi_clients[j]? = some B) (hij : i ≠ j) :
    (∀ K msg len, (add_event_to_kfifo dev K msg len).smi_clients[j]? =
        some (add_event_to_client B K msg len)) ∧
      (broadcast_all dev records).smi_clients[j]? = some (enqueue_all B records) ∧
      (A.fifo.data.length = A.fifo.size →
        (broadcast_all dev records).smi_clients[i]? = some A) ∧
      ((∀ r ∈ records, B.events &&& KFD_SMI_EVENT_MASK_FROM_INDEX r.1 ≠ 0) →
        ((records.map Prod.snd).flatten).length ≤ kfifo_avail B.fifo →
        (enqueue_all B records).fifo.data = B.fifo.data ++ (records.map Prod.snd).flatten ∧
          (enqueue_all B records).events = B.events) ∧
      (broadcast_all (kfd_smi_ev_release dev i) records).smi_clients =
        (broadcast_all dev records).smi_clients.eraseIdx i ∧
      (broadcast_all (kfd_smi_ev_release dev i) records).smi_clients[if j < i then j else j - 1]? =
        some (enqueue_all B records) := by
  have hj : (broadcast_all dev records).smi_clients[j]? = some (enqueue_all B records) := by
    rw [broadcast_all_clients, List.getElem?_map, hB]; rfl
  have herase : (broadcast_all (kfd_smi_ev_release dev i) records).smi_clients =
      (broadcast_all dev records).smi_clients.eraseIdx i := by
    rw [broadcast_all_clients, broadcast_all_clients]
    exact map_eraseIdx_comm _ _ i
  refine ⟨?_, hj, ?_, ?_, herase, ?_⟩
  · intro K msg len
    rw [add_event_to_kfifo_client, hB]; rfl
  · intro hfull
    rw [broadcast_all_clients, List.getElem?_map, hA]
    simp [enqueue_all_full records A hfull]
  · intro hm hroom
    rw [enqueue_all_accepted records B (accepted_all_of_room records B hm hroom)]
    exact ⟨rfl, rfl⟩
  · rw [herase, List.getElem?_eraseIdx]
    by_cases hlt : j < i
    · simp [hlt, hj]
    · have hj1 : j - 1 + 1 = j := by omega
      have hnlt : ¬ j - 1 < i := by omega
      simp [hlt, hnlt, hj1, hj]

theorem full_client_length : full_client.fifo.data.length = full_client.fifo.size :=
  List.length_replicate 1024 120

/-- Claim C4 exercised through `isolation`: with a full queue registered first
and H2 (mask `0x3`, empty queue) second, two records leave the full client as
it was and both reach the queue of H2, as they do when the full client is
unlinked beforehand. -/
theorem isolation_witness :
    (isolation_dev.smi_clients[0]? = some full_client ∧
        isolation_dev.smi_clients[1]? = some scenario_H2 ∧ 0 ≠ 1) ∧
      (broadcast_all isolation_dev two_records).smi_clients[0]? = some full_client ∧
      (broadcast_all isolation_dev two_records).smi_clients[1]? =
        some (enqueue_all scenario_H2 two_records) ∧
      (enqueue_all scenario_H2 two_records).fifo.data =
        scenario_H2.fifo.data ++ (two_records.map Prod.snd).flatten ∧
      (broadcast_all (kfd_smi_ev_release isolation_dev 0) two_records).smi_clients[0]? =
        some (enqueue_all scenario_H2 two_records) ∧
      (enqueue_all scenario_H2 two_records).fifo.data = [49, 32, 97, 10, 48, 32, 98, 10] :=
  ⟨⟨rfl, rfl, by decide⟩,
    (isolation isolation_dev 0 1 full_client scenario_H2 two_records rfl rfl
      (by decide)).2.2.1 full_client_length,
    (isolation isolation_dev 0 1 full_client scenario_H2 two_records rfl rfl
      (by decide)).2.1,
    ((isolation isolation_dev 0 1 full_client scenario_H2 two_records rfl rfl
      (by decide)).2.2.2.1 (by decide) (by decide)).1,
    (isolation isolation_dev 0 1 full_client scenario_H2 two_records rfl rfl
      (by decide)).2.2.2.2.2,
    by decide⟩

/-! ## Reading -/

theorem kfd_smi_ev_read_ok (c c1 : kfd_smi_client) (size : Nat) (km cu : Bool)
    (bytes : List Nat) (h : kfd_smi_ev_read c size km cu = (.ok bytes, c1)) :
    bytes ++ c1.fifo.data = c.fifo.data ∧ c1.events = c.events ∧
      c1.fifo.size = c.fifo.size ∧ bytes ≠ [] := by
  unfold kfd_smi_ev_read at h
  simp only [kfifo_out, kfifo_len] at h
  split at h
  · simp at h
  · split at h
    · simp at h
    · split at h
      · simp at h
      · split at h
        · simp at h
        · rename_i h1 h2 h3 h4
          simp only [Prod.mk.injEq, Ret.ok.injEq] at h
          obtain ⟨hb, hc⟩ := h
          subst hb hc
          refine ⟨by simp, rfl, rfl, ?_⟩
          intro hnil
          have hl := congrArg List.length hnil
          simp only [List.length_take, List.length_nil] at hl
          omega

theorem read_seq_conserves (reqs : List (Nat × Bool × Bool)) (c c2 : kfd_smi_client)
    (out : List Nat) (h : read_seq c reqs = some (out, c2)) :
    out ++ c2.fifo.data = c.fifo.data ∧ c2.events = c.events := by
  induction reqs generalizing c out with
  | nil =>
    simp only [read_seq, Option.some.injEq, Prod.mk.injEq] at h
    obtain ⟨h1, h2⟩ := h
    subst h1 h2
    simp
  | cons q rest ih =>
    unfold read_seq at h
    split at h
    · rename_i bytes c1 hr
      obtain ⟨hb, he, _, _⟩ := kfd_smi_ev_read_ok c c1 q.1 q.2.1 q.2.2 bytes hr
      cases hrest : read_seq c1 rest with
      | none => simp [hrest] at h
      | some r =>
        obtain ⟨o, c3⟩ := r
        simp only [hrest, Option.map_some', Option.some.injEq, Prod.mk.injEq] at h
        obtain ⟨h1, h2⟩ := h
        subst h1 h2
        obtain ⟨hc, he2⟩ := ih c1 o hrest
        refine ⟨?_, by rw [he2, he]⟩
        rw [List.append_assoc, hc, hb]
    · simp at h

/-- Claim C3 (FIFO delivery): for one client and every sequence of records
that are all accepted by its queue, the bytes returned by any following
sequence of successful `kfd_smi_ev_read` calls, followed by the bytes still
buffered, are the bytes buffered at the start followed by the records in
order.  So from an empty queue the bytes read are an initial part of the
concatenated records, and are all of it once the queue is drained. -/
theorem fifo_delivery (c0 c2 : kfd_smi_client) (records : List (Nat × List Nat))
    (reqs : List (Nat × Bool × Bool)) (out : List Nat)
    (hacc : accepted_all c0 records)
    (hread : read_seq (enqueue_all c0 records) reqs = some (out, c2)) :
    out ++ c2.fifo.data = c0.fifo.data ++ (records.map Prod.snd).flatten ∧
      (c0.fifo.data = [] →
        out <+: (records.map Prod.snd).flatten ∧
          (c2.fifo.data = [] → out = (records.map Prod.snd).flatten)) := by
  have h1 := (read_seq_conserves reqs _ c2 out hread).1
  rw [enqueue_all_accepted records c0 hacc] at h1
  simp only at h1
  refine ⟨h1, ?_⟩
  intro h0
  rw [h0, List.nil_append] at h1
  refine ⟨⟨c2.fifo.data, h1⟩, ?_⟩
  intro h2
  rw [h2, List.append_nil] at h1
  exact h1

/-- Claim C3 exercised through `fifo_delivery`: H2 takes the two records, and
reads of at most 3, 1 and 100 bytes return `"1 a"`, `"\n"` and `"0 b\n"`. -/
theorem fifo_delivery_witness :
    (accepted_all scenario_H2 two_records ∧
        read_seq (enqueue_all scenario_H2 two_records)
            [(3, true, true), (1, true, true), (100, true, true)] =
          some ([49, 32, 97, 10, 48, 32, 98, 10],
            { fifo := kfifo_alloc MAX_KFIFO_SIZE, events := 0x3 })) ∧
      [49, 32, 97, 10, 48, 32, 98, 10] = (two_records.map Prod.snd).flatten ∧
      kfd_smi_ev_read (enqueue_all scenario_H2 two_records) 3 true true =
        (.ok [49, 32, 97],
          { fifo := { size := 1024, data := [10, 48, 32, 98, 10] }, events := 0x3 }) :=
  ⟨⟨by decide, by decide⟩,
    ((fifo_delivery scenario_H2 { fifo := kfifo_alloc MAX_KFIFO_SIZE, events := 0x3 }
      two_records [(3, true, true), (1, true, true), (100, true, true)]
      [49, 32, 97, 10, 48, 32, 98, 10] (by decide) (by decide)).2 rfl).2 rfl,
    by decide⟩

theorem kfd_smi_ev_read_wf (c : kfd_smi_client) (size : Nat) (km cu : Bool)
    (hwf : client_wf c) : client_wf (kfd_smi_ev_read c size km cu).2 ∧
      (kfd_smi_ev_read c size km cu).2.events = c.events := by
  obtain ⟨h1, h2, h3⟩ := hwf
  unfold kfd_smi_ev_read
  simp only [kfifo_out, kfifo_len]
  split_ifs <;> refine ⟨⟨h1, ?_, h3⟩, rfl⟩ <;> (try simp only [List.length_drop]) <;> omega

/-- Claim C5 as stated fails for a request of zero bytes: the queue holds one
byte, and the call does not return the first `min 0 1 = 0` bytes; it returns
the would-block error. -/
theorem read_zero_length_counterexample :
    client_wf one_byte_client ∧ one_byte_client.fifo.data ≠ [] ∧
      (kfd_smi_ev_read one_byte_client 0 true true).1 ≠
        .ok (one_byte_client.fifo.data.take (min 0 one_byte_client.fifo.data.length)) ∧
      kfd_smi_ev_read one_byte_client 0 true true = (.err .EAGAIN, one_byte_client) := by
  decide

/-- Claim C5, amended (read and dequeue contract): for every well-formed
client, when the bounce buffer is allocated: with an empty queue the call
returns the would-block error and leaves the client, queue and mask,
unchanged; with at least one byte buffered, a request of at least one byte and
a writable caller buffer the call returns exactly the first
`min size available` bytes and leaves the remaining bytes in order; with at
least one byte buffered and a request of zero bytes the call returns the
would-block error and leaves the client unchanged. -/
theorem read_contract (c : kfd_smi_client) (size : Nat) (copy_to_user_ok : Bool)
    (hwf : client_wf c) :
    (c.fifo.data = [] →
        kfd_smi_ev_read c size true copy_to_user_ok = (.err .EAGAIN, c)) ∧
      (c.fifo.data ≠ [] → 1 ≤ size →
        kfd_smi_ev_read c size true true =
          (.ok (c.fifo.data.take (min size c.fifo.data.length)),
            { c with fifo := { c.fifo with
                data := c.fifo.data.drop (min size c.fifo.data.length) } })) ∧
      (c.fifo.data ≠ [] → size = 0 →
        kfd_smi_ev_read c size true copy_to_user_ok = (.err .EAGAIN, c)) := by
  obtain ⟨h1, h2, _⟩ := hwf
  refine ⟨?_, ?_, ?_⟩
  · intro h0
    simp [kfd_smi_ev_read, kfifo_len, h0]
  · intro hne hsz
    have hlen : 0 < c.fifo.data.length := List.length_pos.mpr hne
    have hmin : min (min size MAX_KFIFO_SIZE) c.fifo.data.length = min size c.fifo.data.length := by
      rw [h1] at h2
      omega
    have hpos : min size c.fifo.data.length ≠ 0 := by omega
    simp only [kfd_smi_ev_read, kfifo_len, kfifo_out, hmin]
    simp [Nat.ne_of_gt hlen]
    intro hs
    omega
  · intro hne hsz
    subst hsz
    have hlen : c.fifo.data.length ≠ 0 := Nat.ne_of_gt (List.length_pos.mpr hne)
    simp [kfd_smi_ev_read, kfifo_len, kfifo_out, hlen]

/-- Claim C5, amended, exercised through `read_contract`: a queue holding one
byte returns it to a request of 8 bytes and is empty afterwards. -/
theorem read_contract_witness :
    client_wf one_byte_client ∧
      kfd_smi_ev_read one_byte_client 8 true true =
        (.ok [65], { fifo := { size := 1024, data := [] }, events := 0x1 }) :=
  ⟨by decide, (read_contract one_byte_client 8 true (by decide)).2.1 (by decide) (by decide)⟩

/-! ## Writing the mask -/

theorem le_value_lt (bs : List Nat) : le_value bs < 256 ^ bs.length := by
  induction bs with
  | nil => simp [le_value]
  | cons b bs ih =>
    simp only [le_value, List.length_cons, pow_succ]
    have hb : b % 256 < 256 := Nat.mod_lt _ (by norm_num)
    omega

theorem le_value_u64_bytes (M : Nat) (hM : M < 2 ^ 64) : le_value (u64_bytes M) = M := by
  simp only [u64_bytes, List.range, List.range.loop, List.map, le_value]
  norm_num
  omega

theorem kfd_smi_ev_write_short (c : kfd_smi_client) (access_ok : Bool) (user : List Nat)
    (size : Nat) (h : size < 8) :
    kfd_smi_ev_write c access_ok user size = (.err .EFAULT, c) := by
  simp [kfd_smi_ev_write, h]

theorem kfd_smi_ev_write_ok (c : kfd_smi_client) (user : List Nat) (size : Nat)
    (h8 : 8 ≤ size) (hreadable : size ≤ user.length) :
    kfd_smi_ev_write c true user size =
      (.ok 8, { c with events := le_value (user.take 8) }) := by
  have h1 : ¬ size < 8 := by omega
  have h2 : 8 ≤ user.length := by omega
  simp [kfd_smi_ev_write, copy_from_user, h1, h2]

/-- Claim C6 (mask write contract): for every client and every readable input
buffer (the range check passes and all `size` bytes can be read), the write
succeeds if and only if `size` is at least 8; on success it returns 8, the
mask becomes the 64-bit value held in the first 8 bytes, so that writing the
bytes of `M` makes the mask `M`, and the queue is unchanged; on rejection the
client, mask and queue, is unchanged.  A well-formed client stays so. -/
theorem mask_write_contract (c : kfd_smi_client) (access_ok : Bool) (user : List Nat)
    (size : Nat) (hacc : access_ok = true) (hreadable : size ≤ user.length) :
    ((∃ n, (kfd_smi_ev_write c access_ok user size).1 = .ok n) ↔ 8 ≤ size) ∧
      (8 ≤ size →
        kfd_smi_ev_write c access_ok user size =
            (.ok 8, { c with events := le_value (user.take 8) }) ∧
          (kfd_smi_ev_write c access_ok user size).2.fifo = c.fifo ∧
          ∀ M, M < 2 ^ 64 → user.take 8 = u64_bytes M →
            (kfd_smi_ev_write c access_ok user size).2.events = M) ∧
      (size < 8 → kfd_smi_ev_write c access_ok user size = (.err .EFAULT, c)) ∧
      (client_wf c → client_wf (kfd_smi_ev_write c access_ok user size).2) := by
  subst hacc
  refine ⟨?_, ?_, ?_, ?_⟩
  · constructor
    · rintro ⟨n, hn⟩
      by_contra h8
      rw [kfd_smi_ev_write_short c true user size (by omega)] at hn
      exact absurd hn (by simp)
    · intro h8
      exact ⟨8, by rw [kfd_smi_ev_write_ok c user size h8 hreadable]⟩
  · intro h8
    rw [kfd_smi_ev_write_ok c user size h8 hreadable]
    refine ⟨rfl, rfl, ?_⟩
    intro M hM hbytes
    simp only [hbytes]
    exact le_value_u64_bytes M hM
  · intro h
    exact kfd_smi_ev_write_short c true user size h
  · intro hwf
    by_cases h8 : 8 ≤ size
    · rw [kfd_smi_ev_write_ok c user size h8 hreadable]
      refine ⟨hwf.1, hwf.2.1, ?_⟩
      have hl := le_value_lt (user.take 8)
      have hlen : (user.take 8).length = 8 := by
        rw [List.length_take]; omega
      rw [hlen] at hl
      simpa using hl
    · rw [kfd_smi_ev_write_short c true user size (by omega)]
      exact hwf

/-- Claim C6 exercised through `mask_write_contract`: writing the 8 bytes of
`0x3` to H1 sets its mask to `0x3` and returns 8; a write of 4 bytes is
rejected. -/
theorem mask_write_contract_witness :
    ((true = true) ∧ 8 ≤ [3, 0, 0, 0, 0, 0, 0, 0].length) ∧
      kfd_smi_ev_write scenario_H1 true [3, 0, 0, 0, 0, 0, 0, 0] 8 =
        (.ok 8, { scenario_H1 with events := le_value ([3, 0, 0, 0, 0, 0, 0, 0].take 8) }) ∧
      (kfd_smi_ev_write scenario_H1 true [3, 0, 0, 0, 0, 0, 0, 0] 8).2.events = 0x3 ∧
      kfd_smi_ev_write scenario_H1 true [3, 0, 0, 0] 4 = (.err .EFAULT, scenario_H1) :=
  ⟨⟨rfl, by decide⟩,
    ((mask_write_contract scenario_H1 true [3, 0, 0, 0, 0, 0, 0, 0] 8 rfl (by decide)).2.1
      (by decide)).1,
    by decide,
    (mask_write_contract scenario_H1 true [3, 0, 0, 0] 4 rfl (by decide)).2.2.1 (by decide)⟩

/-- Claim C8 as stated fails: a write of 4 bytes fails with `EFAULT`, which is
not the code `EAGAIN` that a read of the empty queue returns. -/
theorem short_write_code_counterexample :
    (kfd_smi_ev_read scenario_H1 8 true true).1.code = some Errno.EAGAIN ∧
      (kfd_smi_ev_write scenario_H1 true [3, 0, 0, 0] 4).1.code = some Errno.EFAULT ∧
      (kfd_smi_ev_write scenario_H1 true [3, 0, 0, 0] 4).1.code ≠
        (kfd_smi_ev_read scenario_H1 8 true true).1.code := by
  decide

/-- Claim C8, amended (short-write error code): for every client and every
write of fewer than 8 bytes, whatever the buffer, `kfd_smi_ev_write` fails
with the fault code `EFAULT` (14) and leaves the client unchanged; this is
not the would-block code `EAGAIN` (11), which is what `kfd_smi_ev_read`
returns for an empty queue. -/
theorem short_write_error_code (c : kfd_smi_client) (access_ok : Bool) (user : List Nat)
    (size : Nat) (hshort : size < 8) :
    kfd_smi_ev_write c access_ok user size = (.err .EFAULT, c) ∧
      (kfd_smi_ev_write c access_ok user size).1.code = some Errno.EFAULT ∧
      Errno.EFAULT.toInt = 14 ∧ Errno.EAGAIN.toInt = 11 ∧
      (∀ (r : kfd_smi_client) (n : Nat) (cu : Bool), r.fifo.data = [] →
        (kfd_smi_ev_read r n true cu).1.code = some Errno.EAGAIN ∧
          (kfd_smi_ev_write c access_ok user size).1.code ≠
            (kfd_smi_ev_read r n true cu).1.code) := by
  have hw := kfd_smi_ev_write_short c access_ok user size hshort
  refine ⟨hw, by rw [hw]; rfl, rfl, rfl, ?_⟩
  intro r n cu hr
  have hrd : kfd_smi_ev_read r n true cu = (.err .EAGAIN, r) := by
    simp [kfd_smi_ev_read, kfifo_len, hr]
  rw [hw, hrd]
  exact ⟨rfl, by simp [Ret.code]⟩

/-- Claim C8, amended, exercised through `short_write_error_code`. -/
theorem short_write_error_code_witness :
    4 < 8 ∧ kfd_smi_ev_write scenario_H2 true [3, 0, 0, 0] 4 = (.err .EFAULT, scenario_H2) :=
  ⟨by decide, (short_write_error_code scenario_H2 true [3, 0, 0, 0] 4 (by decide)).1⟩

/-! ## Encoding -/

theorem hex_digits_rev_length (fuel n : Nat) : (hex_digits_rev fuel n).length ≤ fuel := by
  induction fuel generalizing n with
  | zero => simp [hex_digits_rev]
  | succ k ih =>
    unfold hex_digits_rev
    split
    · simp
    · have := ih (n / 16)
      simp only [List.length_cons]
      omega

theorem fmt_x_length (v : Nat) : (fmt_x v).length ≤ 8 := by
  unfold fmt_x
  rw [List.length_reverse]
  exact hex_digits_rev_length 8 _

theorem hex_char_value_hex_digit (d : Nat) (hd : d < 16) :
    hex_char_value (hex_digit d) = some d := by
  unfold hex_char_value hex_digit
  by_cases h : d < 10
  · have h1 : 48 ≤ 48 + d ∧ 48 + d ≤ 57 := by omega
    simp [h, h1]
  · have h1 : ¬ (48 ≤ 87 + d ∧ 87 + d ≤ 57) := by omega
    have h2 : 97 ≤ 87 + d ∧ 87 + d ≤ 102 := by omega
    simp [h, h1, h2]

theorem hex_value_rev_digits (fuel n : Nat) (hn : n < 16 ^ fuel) (hf : 0 < fuel) :
    hex_value_rev (hex_digits_rev fuel n) = some n := by
  induction fuel generalizing n with
  | zero => omega
  | succ k ih =>
    unfold hex_digits_rev
    have hd := hex_char_value_hex_digit (n % 16) (Nat.mod_lt _ (by norm_num))
    by_cases hz : n / 16 = 0
    · simp only [hz, if_true, hex_value_rev, hd]
      have : n % 16 = n := by omega
      simp [this]
    · have hk : 0 < k := by
        rcases Nat.eq_zero_or_pos k with h0 | h0
        · subst h0
          simp at hn
          omega
        · exact h0
      have hlt : n / 16 < 16 ^ k := by
        rw [pow_succ] at hn
        omega
      simp only [hz, if_false, hex_value_rev, hd, ih (n / 16) hlt hk]
      congr 1
      omega

theorem hex_value_fmt_x (v : Nat) : hex_value (fmt_x v) = some (v % 2 ^ 32) := by
  unfold hex_value fmt_x
  rw [List.reverse_reverse]
  exact hex_value_rev_digits 8 _ (Nat.mod_lt _ (by norm_num)) (by norm_num)

theorem kfd_smi_event_encode_fits (event : Nat) (body : List Nat)
    (hfit : (fmt_x event ++ [32] ++ body).length < KFD_SMI_EVENT_MSG_SIZE) :
    kfd_smi_event_encode event body =
      (fmt_x event ++ [32] ++ body, (fmt_x event ++ [32] ++ body).length) := by
  have h8 := fmt_x_length event
  simp only [KFD_SMI_EVENT_MSG_SIZE, List.length_append, List.length_singleton] at hfit
  simp only [kfd_smi_event_encode, vsnprintf, KFD_SMI_EVENT_MSG_SIZE, List.length_append,
    List.length_singleton]
  rw [List.take_of_length_le (by simp only [List.length_append, List.length_singleton]; omega),
    List.take_of_length_le (by omega)]

theorem add_event_to_client_memory (c : kfd_smi_client) (K : Nat) (msg rest : List Nat) :
    add_event_to_client c K (msg ++ rest) msg.length =
      add_event_to_client c K msg msg.length := by
  have htake : (msg ++ rest).take (min msg.length (kfifo_avail c.fifo)) =
      msg.take (min msg.length (kfifo_avail c.fifo)) :=
    List.take_append_of_le_length (Nat.min_le_left _ _)
  simp only [add_event_to_client, kfifo_in, htake]

theorem add_event_to_kfifo_memory (dev : kfd_dev) (K : Nat) (msg rest : List Nat) :
    add_event_to_kfifo dev K (msg ++ rest) msg.length =
      add_event_to_kfifo dev K msg msg.length := by
  simp only [add_event_to_kfifo, add_event_to_client_memory]

theorem kfd_smi_event_add_fits (dev : kfd_dev) (event : Nat) (body stack : List Nat)
    (hfit : (fmt_x event ++ [32] ++ body).length < KFD_SMI_EVENT_MSG_SIZE) :
    kfd_smi_event_add dev event body stack =
      add_event_to_kfifo dev event (fmt_x event ++ [32] ++ body)
        (fmt_x event ++ [32] ++ body).length := by
  unfold kfd_smi_event_add
  split
  · rename_i he
    rw [add_event_to_kfifo_nil dev _ _ _ (by simpa using he)]
  · rw [kfd_smi_event_encode_fits event body hfit]
    exact add_event_to_kfifo_memory dev event _ _

theorem kfd_smi_event_encode_len (event : Nat) (body : List Nat) :
    (kfd_smi_event_encode event body).2 = (fmt_x event).length + 1 + body.length ∧
      (kfd_smi_event_encode event body).1.length ≤ KFD_SMI_EVENT_MSG_SIZE - 1 := by
  have h8 := fmt_x_length event
  simp only [kfd_smi_event_encode, vsnprintf, KFD_SMI_EVENT_MSG_SIZE, List.length_append,
    List.length_singleton, List.length_take]
  refine ⟨trivial, ?_⟩
  omega

theorem gpu_reset_record_fits (event seq : Nat) :
    (fmt_x event ++ [32] ++ (fmt_x seq ++ [10])).length < KFD_SMI_EVENT_MSG_SIZE := by
  have h1 := fmt_x_length event
  have h2 := fmt_x_length seq
  simp only [KFD_SMI_EVENT_MSG_SIZE, List.length_append, List.length_singleton]
  omega

theorem vmfault_record_fits (event pid : Nat) (task_name : List Nat)
    (hname : task_name.length < TASK_COMM_LEN) :
    (fmt_x event ++ [32] ++ (fmt_x pid ++ [58] ++ task_name ++ [10])).length <
      KFD_SMI_EVENT_MSG_SIZE := by
  have h1 := fmt_x_length event
  have h2 := fmt_x_length pid
  simp only [TASK_COMM_LEN] at hname
  simp only [KFD_SMI_EVENT_MSG_SIZE, List.length_append, List.length_singleton]
  omega

theorem kfd_smi_event_add_gpu_reset (dev : kfd_dev) (event seq : Nat) (stack : List Nat) :
    kfd_smi_event_add dev event (fmt_x seq ++ [10]) stack =
      add_event_to_kfifo dev event (gpu_reset_record event seq)
        (gpu_reset_record event seq).length := by
  rw [kfd_smi_event_add_fits dev event _ stack (gpu_reset_record_fits event seq)]
  simp [gpu_reset_record]

/-- Claim C9 (reset sequence number): for every device state, with or without
registered clients, a pre-reset call sets `reset_seq_num` to its successor
modulo 2^32 and offers to the clients the record made of the kind
`KFD_SMI_EVENT_GPU_PRE_RESET` in lowercase hexadecimal, a blank, the new
sequence number in lowercase hexadecimal and a newline; a post-reset call
leaves `reset_seq_num` unchanged and offers the same record with the kind
`KFD_SMI_EVENT_GPU_POST_RESET` and the current sequence number; so a post-reset
after a pre-reset reports the sequence number the pre-reset reported.  The
hexadecimal numeral denotes the sequence number, and the memory that follows
the encoded record plays no part. -/
theorem gpu_reset_seq_num (ids : kfd_smi_event) (dev : kfd_dev) (stack stack2 : List Nat) :
    kfd_smi_event_update_gpu_reset ids dev false stack =
        add_event_to_kfifo { dev with reset_seq_num := (dev.reset_seq_num + 1) % 2 ^ 32 }
          ids.KFD_SMI_EVENT_GPU_PRE_RESET
          (gpu_reset_record ids.KFD_SMI_EVENT_GPU_PRE_RESET ((dev.reset_seq_num + 1) % 2 ^ 32))
          (gpu_reset_record ids.KFD_SMI_EVENT_GPU_PRE_RESET
            ((dev.reset_seq_num + 1) % 2 ^ 32)).length ∧
      (kfd_smi_event_update_gpu_reset ids dev false stack).reset_seq_num =
        (dev.reset_seq_num + 1) % 2 ^ 32 ∧
      kfd_smi_event_update_gpu_reset ids dev true stack =
        add_event_to_kfifo dev ids.KFD_SMI_EVENT_GPU_POST_RESET
          (gpu_reset_record ids.KFD_SMI_EVENT_GPU_POST_RESET dev.reset_seq_num)
          (gpu_reset_record ids.KFD_SMI_EVENT_GPU_POST_RESET dev.reset_seq_num).length ∧
      (kfd_smi_event_update_gpu_reset ids dev true stack).reset_seq_num = dev.reset_seq_num ∧
      kfd_smi_event_update_gpu_reset ids (kfd_smi_event_update_gpu_reset ids dev false stack) true
          stack2 =
        add_event_to_kfifo (kfd_smi_event_update_gpu_reset ids dev false stack)
          ids.KFD_SMI_EVENT_GPU_POST_RESET
          (gpu_reset_record ids.KFD_SMI_EVENT_GPU_POST_RESET ((dev.reset_seq_num + 1) % 2 ^ 32))
          (gpu_reset_record ids.KFD_SMI_EVENT_GPU_POST_RESET
            ((dev.reset_seq_num + 1) % 2 ^ 32)).length ∧
      (∀ event seq, gpu_reset_record event seq = fmt_x event ++ [32] ++ fmt_x seq ++ [10]) ∧
      (∀ v, hex_value (fmt_x v) = some (v % 2 ^ 32)) := by
  have hpre : kfd_smi_event_update_gpu_reset ids dev false stack =
      add_event_to_kfifo { dev with reset_seq_num := (dev.reset_seq_num + 1) % 2 ^ 32 }
        ids.KFD_SMI_EVENT_GPU_PRE_RESET
        (gpu_reset_record ids.KFD_SMI_EVENT_GPU_PRE_RESET ((dev.reset_seq_num + 1) % 2 ^ 32))
        (gpu_reset_record ids.KFD_SMI_EVENT_GPU_PRE_RESET
          ((dev.reset_seq_num + 1) % 2 ^ 32)).length := by
    simp only [kfd_smi_event_update_gpu_reset, Bool.false_eq_true, if_false]
    exact kfd_smi_event_add_gpu_reset _ _ _ _
  have hpost : ∀ (d : kfd_dev) (m : List Nat), kfd_smi_event_update_gpu_reset ids d true m =
      add_event_to_kfifo d ids.KFD_SMI_EVENT_GPU_POST_RESET
        (gpu_reset_record ids.KFD_SMI_EVENT_GPU_POST_RESET d.reset_seq_num)
        (gpu_reset_record ids.KFD_SMI_EVENT_GPU_POST_RESET d.reset_seq_num).length := by
    intro d m
    simp only [kfd_smi_event_update_gpu_reset, if_true]
    exact kfd_smi_event_add_gpu_reset _ _ _ _
  have hseq : (kfd_smi_event_update_gpu_reset ids dev false stack).reset_seq_num =
      (dev.reset_seq_num + 1) % 2 ^ 32 := by
    rw [hpre]; rfl
  refine ⟨hpre, hseq, hpost dev stack, by rw [hpost dev stack]; rfl, ?_, fun _ _ => rfl,
    hex_value_fmt_x⟩
  rw [hpost, hseq]

/-- Claim C9 exercised at a concrete state: at sequence number `0x1e` with
kinds 3 and 4, the pre-reset appends `"3 1f\n"` and the post-reset after it
`"4 1f\n"`; at `0xffffffff` the sequence number wraps to 0. -/
theorem gpu_reset_seq_num_witness :
    (kfd_smi_event_update_gpu_reset sample_ids sample_dev false sample_stack).reset_seq_num =
        0x1f ∧
      (kfd_smi_event_update_gpu_reset sample_ids sample_dev false sample_stack).smi_clients.map
          (fun c => c.fifo.data) = [[51, 32, 49, 102, 10]] ∧
      (kfd_smi_event_update_gpu_reset sample_ids
          (kfd_smi_event_update_gpu_reset sample_ids sample_dev false sample_stack) true
          []).smi_clients.map
          (fun c => c.fifo.data) = [[51, 32, 49, 102, 10, 52, 32, 49, 102, 10]] ∧
      (kfd_smi_event_update_gpu_reset sample_ids
          { smi_clients := [], reset_seq_num := 0xffffffff } false []).reset_seq_num = 0 ∧
      gpu_reset_record 3 0x1f = [51, 32, 49, 102, 10] :=
  ⟨(gpu_reset_seq_num sample_ids sample_dev sample_stack []).2.1, by decide, by decide,
    (gpu_reset_seq_num sample_ids { smi_clients := [], reset_seq_num := 0xffffffff } [] []).2.1,
    by decide⟩

/-- Claim C10 (VM-fault suppression): for every device state, pasid and
task-info collaborator, when the collaborator resolves no process (pid 0) the
device, and so every client's queue and mask, is unchanged whatever the masks
are; when it resolves a process with a non-zero pid and a name that fits the
`task_name` array, the call is the broadcast, under the kind
`KFD_SMI_EVENT_VMFAULT`, of the record made of the kind in lowercase
hexadecimal, a blank, the pid in lowercase hexadecimal, a colon, the name and
a newline, whatever memory follows the encoded record. -/
theorem vmfault_suppression (ids : kfd_smi_event)
    (amdgpu_vm_get_task_info : Nat → amdgpu_task_info → amdgpu_task_info)
    (dev : kfd_dev) (pasid : Nat) (stack : List Nat) :
    ((amdgpu_vm_get_task_info pasid { pid := 0, task_name := [] }).pid = 0 →
        kfd_smi_event_update_vmfault ids amdgpu_vm_get_task_info dev pasid stack = dev) ∧
      ((amdgpu_vm_get_task_info pasid { pid := 0, task_name := [] }).pid ≠ 0 →
        (amdgpu_vm_get_task_info pasid { pid := 0, task_name := [] }).task_name.length <
          TASK_COMM_LEN →
        kfd_smi_event_update_vmfault ids amdgpu_vm_get_task_info dev pasid stack =
          add_event_to_kfifo dev ids.KFD_SMI_EVENT_VMFAULT
            (vmfault_record ids.KFD_SMI_EVENT_VMFAULT
              (amdgpu_vm_get_task_info pasid { pid := 0, task_name := [] }).pid
              (amdgpu_vm_get_task_info pasid { pid := 0, task_name := [] }).task_name)
            (vmfault_record ids.KFD_SMI_EVENT_VMFAULT
              (amdgpu_vm_get_task_info pasid { pid := 0, task_name := [] }).pid
              (amdgpu_vm_get_task_info pasid { pid := 0, task_name := [] }).task_name).length) ∧
      (∀ event pid name,
        vmfault_record event pid name = fmt_x event ++ [32] ++ fmt_x pid ++ [58] ++ name ++ [10]) := by
  refine ⟨?_, ?_, fun _ _ _ => rfl⟩
  · intro h0
    simp [kfd_smi_event_update_vmfault, h0]
  · intro hpid hname
    simp only [kfd_smi_event_update_vmfault, hpid, if_false]
    rw [kfd_smi_event_add_fits dev _ _ stack (vmfault_record_fits _ _ _ hname)]
    simp [vmfault_record]

/-- Claim C10 exercised through `vmfault_suppression`: for pasid 7 the
collaborator resolves process `0x4d2` named `bash` and the subscriber receives
`"1 4d2:bash\n"`; for pasid 8 it resolves no process and the device is
unchanged. -/
theorem vmfault_suppression_witness :
    kfd_smi_event_update_vmfault sample_ids sample_task_info sample_dev 8 sample_stack = sample_dev ∧
      kfd_smi_event_update_vmfault sample_ids sample_task_info sample_dev 7 sample_stack =
        add_event_to_kfifo sample_dev 1 (vmfault_record 1 0x4d2 [98, 97, 115, 104])
          (vmfault_record 1 0x4d2 [98, 97, 115, 104]).length ∧
      vmfault_record 1 0x4d2 [98, 97, 115, 104] =
        [49, 32, 52, 100, 50, 58, 98, 97, 115, 104, 10] ∧
      (kfd_smi_event_update_vmfault sample_ids sample_task_info sample_dev 7
          sample_stack).smi_clients.map
          (fun c => c.fifo.data) = [[49, 32, 52, 100, 50, 58, 98, 97, 115, 104, 10]] :=
  ⟨(vmfault_suppression sample_ids sample_task_info sample_dev 8 sample_stack).1 (by decide),
    (vmfault_suppression sample_ids sample_task_info sample_dev 7 sample_stack).2.1 (by decide)
      (by decide),
    by decide, by decide⟩

theorem hex_value_fmt_llx (v : Nat) : hex_value (fmt_llx v) = some (v % 2 ^ 64) := by
  unfold hex_value fmt_llx
  rw [List.reverse_reverse]
  exact hex_value_rev_digits 16 _ (Nat.mod_lt _ (by norm_num)) (by norm_num)

theorem read_seq_drain (c : kfd_smi_client) (hwf : client_wf c) (hne : c.fifo.data ≠ []) :
    read_seq c [(c.fifo.data.length, true, true)] =
      some (c.fifo.data, { c with fifo := { c.fifo with data := [] } }) := by
  have hlen : 0 < c.fifo.data.length := List.length_pos.mpr hne
  have hle : c.fifo.data.length ≤ MAX_KFIFO_SIZE := by
    have := hwf.2.1
    rw [hwf.1] at this
    exact this
  have hz : c.fifo.data.length ≠ 0 := Nat.ne_of_gt hlen
  simp [read_seq, kfd_smi_ev_read, kfifo_len, kfifo_out, hz, Nat.min_eq_left hle]

/-! ## The invariant of a registered client -/

theorem kfd_smi_event_open_wf (dev : kfd_dev) (kzalloc_ok kfifo_alloc_ok : Bool) (anon_fd : Int)
    (hwf : ∀ c ∈ dev.smi_clients, client_wf c) :
    ∀ c ∈ (kfd_smi_event_open dev kzalloc_ok kfifo_alloc_ok anon_fd).2.smi_clients,
      client_wf c := by
  unfold kfd_smi_event_open
  split_ifs
  · exact hwf
  · exact hwf
  · exact hwf
  · intro c hc
    simp only [List.mem_cons] at hc
    rcases hc with hc | hc
    · subst hc
      exact ⟨rfl, by simp [kfifo_alloc], by norm_num⟩
    · exact hwf c hc

theorem add_event_to_kfifo_wf (dev : kfd_dev) (K : Nat) (msg : List Nat) (len : Nat)
    (hwf : ∀ c ∈ dev.smi_clients, client_wf c) :
    ∀ c ∈ (add_event_to_kfifo dev K msg len).smi_clients, client_wf c := by
  intro c hc
  simp only [add_event_to_kfifo, List.mem_map] at hc
  obtain ⟨c0, hc0, rfl⟩ := hc
  exact add_event_to_client_wf c0 K msg len (hwf c0 hc0)

end KfdSmi
